import Mathlib

/-
  A verification development for the static information-flow analysis
  (files staticinflowanalysis/hoare.py and staticinflowanalysis/collector.py).

  The Python program is shallowly embedded: Python sets of identifiers become
  `Finset String`, the dict holding the independency map becomes an
  association list in insertion order (`Dict`), and every operation that can
  raise a Python exception (KeyError, IndexError, ValueError,
  UnboundLocalError) returns `Except String`.  The statement visitor
  `Hoare.visit` becomes the fuel-indexed interpreter `run`; fuel only bounds
  recursion depth and loop iterations, it plays no semantic role.
-/

namespace StaticInFlow

/-- Confidentiality labels, from typedefs.Confidentiality.
    The enum values are the strings "High", "Low" and "None". -/
inductive Confidentiality where
  | High
  | Low
  | NA
  deriving DecidableEq, Repr

/-- Confidentiality(value): succeeds exactly on the three enum value strings,
    raises ValueError otherwise. -/
def parseConf (s : String) : Except String Confidentiality :=
  if s = "High" then .ok .High
  else if s = "Low" then .ok .Low
  else if s = "None" then .ok .NA
  else .error "ValueError"

/-- Decidable equality of Except results, needed to state concrete runs. -/
instance exceptDecEq {e a : Type} [DecidableEq e] [DecidableEq a] :
    DecidableEq (Except e a) := fun x y =>
  match x, y with
  | .error u, .error v =>
    if h : u = v then isTrue (congrArg Except.error h)
    else isFalse (by intro q; injection q with h2; exact h h2)
  | .error _, .ok _ => isFalse (by intro q; exact Except.noConfusion q)
  | .ok _, .error _ => isFalse (by intro q; exact Except.noConfusion q)
  | .ok u, .ok v =>
    if h : u = v then isTrue (congrArg Except.ok h)
    else isFalse (by intro q; injection q with h2; exact h h2)

abbrev VarSet := Finset String

/-- The independency map: a Python dict from variable name to a set of
    variable names, modelled as an association list in insertion order
    (Python dicts preserve insertion order; updating an existing key keeps
    its position). -/
abbrev Dict := List (String × VarSet)

/-- Dict lookup (d[k] when present). -/
def dlookup : Dict → String → Option VarSet
  | [], _ => none
  | (k, v) :: rest, x => if k = x then some v else dlookup rest x

/-- Dict assignment d[k] = v: replaces the value of an existing key in
    place, otherwise appends the new key at the end. -/
def dset : Dict → String → VarSet → Dict
  | [], k, v => [(k, v)]
  | (k1, v1) :: rest, k, v =>
    if k1 = k then (k, v) :: rest else (k1, v1) :: dset rest k v

/-- The key sequence of a dict. -/
def dkeys (d : Dict) : List String := d.map Prod.fst

/-- Total number of elements over all value sets; the termination measure
    for the loop fixpoint iteration. -/
def dsize (d : Dict) : Nat := (d.map (fun kv => kv.2.card)).sum

/-- Python dict equality (==): same keys and equal values, insertion order
    irrelevant. -/
def dictBeq (a b : Dict) : Bool :=
  a.all (fun kv => decide (dlookup b kv.1 = some kv.2)) &&
    b.all (fun kv => decide (dlookup a kv.1 = some kv.2))

/-- join from hoare.py: per-key set intersection over the first dict's keys,
    looking the key up in the second dict (KeyError when absent). -/
def joinD : Dict → Dict → Except String Dict
  | [], _ => .ok []
  | (k, v) :: rest, b =>
    match dlookup b k with
    | none => .error "KeyError"
    | some w => do
      let r ← joinD rest b
      .ok ((k, v ∩ w) :: r)

/-- Evaluate a fallible function over a list, left to right, stopping at the
    first raised exception (a Python list comprehension over such calls). -/
def mapE {a b : Type} (f : a → Except String b) : List a → Except String (List b)
  | [] => .ok []
  | x :: l => do
    let y ← f x
    let ys ← mapE f l
    .ok (y :: ys)

/-- intersect from hoare.py: empty input gives the empty set, otherwise the
    running intersection starting from a copy of the first set. -/
def intersectL : List VarSet → VarSet
  | [] => ∅
  | s :: rest => (s :: rest).foldl (fun x y => x ∩ y) s

/-- union from hoare.py: empty input gives the empty set, otherwise the
    running union starting from a copy of the first set. -/
def unionL : List VarSet → VarSet
  | [] => ∅
  | s :: rest => (s :: rest).foldl (fun x y => x ∪ y) s

/-- The character-list comparison that orders variable names. -/
def strLe (x y : String) : Prop := x.data ≤ y.data

instance strLeDec : DecidableRel strLe :=
  fun x y => inferInstanceAs (Decidable (x.data ≤ y.data))

instance strLeTotal : IsTotal String strLe := ⟨fun x y => le_total x.data y.data⟩

instance strLeTrans : IsTrans String strLe := ⟨fun _ _ _ h1 h2 => le_trans h1 h2⟩

instance strLeAntisymm : IsAntisymm String strLe :=
  ⟨fun a b h1 h2 => by
    cases a
    cases b
    exact congrArg String.mk (le_antisymm h1 h2)⟩

/-- The iteration order of a Python set: unspecified but fixed within a run;
    the model fixes a lexicographic order (by insertion sort, whose plain
    structural recursion the kernel can evaluate). -/
def sortedVars (fv : VarSet) : List String :=
  Quotient.lift (fun l => List.insertionSort strLe l)
    (fun a b hab =>
      List.eq_of_perm_of_sorted
        (((List.perm_insertionSort _ a).trans hab).trans
          (List.perm_insertionSort _ b).symm)
        (List.sorted_insertionSort _ a) (List.sorted_insertionSort _ b)) fv.val

/-- The expression context of an ast.Name node (ast.Load or ast.Store). -/
inductive NameCtx where
  | load
  | store
  deriving DecidableEq, Repr

/-- Expressions of the analysed mini-AST.  Argument lists of a call are
    encoded with the anil/acons constructors so that every traversal is a
    plain structural recursion. -/
inductive Expr where
  | name (id : String) (ctx : NameCtx)
  | num (n : Int)
  | binop (l r : Expr)
  | call (func : Expr) (args : Expr)
  | anil
  | acons (head tail : Expr)
  deriving DecidableEq, Repr

/-- Statements of the analysed mini-AST.  Statement blocks (function and
    branch bodies) are encoded with the snil/scons constructors.  Assignment
    targets are identifiers (ast.Name nodes in Store context), matching what
    visit_Assign/visit_AugAssign require. -/
inductive Stmt where
  | assign (targets : List String) (value : Expr) (lineno : Nat)
  | augassign (target : String) (value : Expr)
  | sif (test : Expr) (body orelse : Stmt)
  | swhile (test : Expr) (body orelse : Stmt)
  | sfor (target : String) (iter : Expr) (body orelse : Stmt)
  | sfunc (fname : String) (args : List String) (body : Stmt) (lineno col : Nat)
  | ret (value : Expr)
  | snil
  | scons (head tail : Stmt)
  deriving DecidableEq, Repr

/-- collector.VariableCollector on expressions.  visit_Name collects a name
    unless free_only is set and the context is not Load; visit_Call visits
    only the argument list, never the callee; every other node falls through
    to generic_visit (all children). -/
def collectE (freeOnly : Bool) : Expr → VarSet
  | .name id ctx => if !freeOnly || ctx = .load then {id} else ∅
  | .num _ => ∅
  | .binop l r => collectE freeOnly l ∪ collectE freeOnly r
  | .call _ args => collectE freeOnly args
  | .anil => ∅
  | .acons h t => collectE freeOnly h ∪ collectE freeOnly t

/-- collector.VariableCollector on statements.  visit_For visits the
    iterable and the body/orelse blocks, skipping the loop target; all other
    statements fall through to generic_visit, where assignment targets are
    Name nodes in Store context (collected only when free_only is not set)
    and a function definition contributes its body (parameter names are not
    Name nodes and are never collected). -/
def collectS (freeOnly : Bool) : Stmt → VarSet
  | .assign targets value _ =>
    (if freeOnly then ∅ else targets.toFinset) ∪ collectE freeOnly value
  | .augassign target value =>
    (if freeOnly then ∅ else {target}) ∪ collectE freeOnly value
  | .sif test body orelse =>
    collectE freeOnly test ∪ collectS freeOnly body ∪ collectS freeOnly orelse
  | .swhile test body orelse =>
    collectE freeOnly test ∪ collectS freeOnly body ∪ collectS freeOnly orelse
  | .sfor _ iter body orelse =>
    collectE freeOnly iter ∪ collectS freeOnly body ∪ collectS freeOnly orelse
  | .sfunc _ _ body _ _ => collectS freeOnly body
  | .ret value => collectE freeOnly value
  | .snil => ∅
  | .scons h t => collectS freeOnly h ∪ collectS freeOnly t

/-- collect_free_variables. -/
def collectFree (e : Expr) : VarSet := collectE true e

/-- Recognise the regex fragment at one position: a hash, then any number of
    spaces, then the literal text flow followed by a colon; returns the rest
    of the line after the colon. -/
def flowTailAt : List Char → Option (List Char)
  | '#' :: rest =>
    match rest.dropWhile (fun c => c = ' ') with
    | 'f' :: 'l' :: 'o' :: 'w' :: ':' :: tail => some tail
    | _ => none
  | _ => none

/-- The greedy leading wildcard of the regex makes re.match pick the last
    position where the flow marker occurs; this scans for that last match. -/
def findFlowTail : List Char → Option (List Char)
  | [] => none
  | c :: rest =>
    match findFlowTail rest with
    | some t => some t
    | none => flowTailAt (c :: rest)

/-- str.split on a comma: note that splitting the empty text yields one
    empty piece, exactly as in Python. -/
def splitComma : List Char → List (List Char)
  | [] => [[]]
  | c :: rest =>
    if c = ',' then [] :: splitComma rest
    else
      match splitComma rest with
      | [] => [[c]]
      | p :: ps => (c :: p) :: ps

/-- str.strip: drop whitespace from both ends. -/
def trimChars (l : List Char) : List Char :=
  ((l.dropWhile Char.isWhitespace).reverse.dropWhile Char.isWhitespace).reverse

/-- collector.extract_flow_config: no flow marker on the line gives the
    empty list; otherwise the text after the marker is split on commas,
    stripped, and parsed, where an unknown label raises ValueError. -/
def extractFlowConfig (line : String) : Except String (List Confidentiality) :=
  match findFlowTail line.toList with
  | none => .ok []
  | some tail =>
    mapE (fun p => parseConf (String.mk (trimChars p))) (splitComma tail)

/-- The six flake8 error codes of the Hoare class. -/
inductive ErrCode where
  | STA100
  | STA101
  | STA200
  | STA201
  | STA300
  | STA301
  deriving DecidableEq, Repr

/-- One collected error: position, code and the message parameters (low
    variable, high variable, enclosing function) the format string receives. -/
structure Diag where
  line : Nat
  col : Nat
  code : ErrCode
  lowVar : String
  highVar : String
  funcName : String
  deriving DecidableEq, Repr

/-- The mutable analysis state of a Hoare instance.  locs models the Python
    attribute named locals, all_vars the set of tracked variables. -/
structure State where
  context : VarSet
  indeps : Dict
  all_vars : VarSet
  errors : List Diag
  high : VarSet
  low : VarSet
  locs : VarSet
  lines : List String
  deriving DecidableEq

/-- Hoare.__init__: empty context and partitions, and for every tracked
    variable v the entry indeps[v] = varset minus v.  Python iterates the
    variable set in an unspecified but fixed order; the model fixes the
    lexicographic one. -/
def initState (lines : List String) (varset : VarSet) : State :=
  { context := ∅
    indeps := (sortedVars varset).map (fun v => (v, varset.erase v))
    all_vars := varset
    errors := []
    high := ∅
    low := ∅
    locs := ∅
    lines := lines }

/-- self.indeps[x]: KeyError when x is not a key. -/
def lookupInd (s : State) (x : String) : Except String VarSet :=
  match dlookup s.indeps x with
  | some v => .ok v
  | none => .error "KeyError"

/-- Hoare.calc_indeps: the full variable set for an empty input, otherwise
    the intersection of the current independency sets of the given
    variables. -/
def calcIndeps (s : State) (fv : VarSet) : Except String VarSet :=
  if fv = ∅ then .ok s.all_vars
  else do
    let vals ← mapE (lookupInd s) (sortedVars fv)
    Except.ok (intersectL vals)

/-- Hoare.calc_deps: the union over the given variables of the complement of
    their current independency sets. -/
def calcDeps (s : State) (fv : VarSet) : Except String VarSet := do
  let vals ← mapE (fun x => do
    let v ← lookupInd s x
    Except.ok (s.all_vars \ v)) (sortedVars fv)
  Except.ok (unionL vals)

/-- Hoare.add_var. -/
def addVar (s : State) (var : String) (conf : Confidentiality) : State :=
  match conf with
  | .High => { s with high := insert var s.high }
  | .Low => { s with low := insert var s.low }
  | .NA => s

/-- Error classification for a low-to-high flow (low_var not in
    indeps[high_var]). -/
def classifyLowFlow (s : State) (lowVar highVar : String) : ErrCode :=
  if lowVar ∈ s.locs then .STA201
  else if highVar ∈ s.locs then .STA301
  else .STA101

/-- Error classification for a high-to-low flow (high_var not in
    indeps[low_var]). -/
def classifyHighFlow (s : State) (lowVar highVar : String) : ErrCode :=
  if highVar ∈ s.locs then .STA200
  else if lowVar ∈ s.locs then .STA300
  else .STA100

/-- One inner-loop step of the check in visit_FunctionDef.  error_type has
    function scope in Python: it survives from one pair to the next, and
    reading it before any branch assigned it raises UnboundLocalError.
    add_error is called unconditionally for every pair. -/
def checkPair (line col : Nat) (fname : String) (s : State) (et : Option ErrCode)
    (hv lv : String) : Except String (State × Option ErrCode) := do
  let indH ← lookupInd s hv
  let et1 := if lv ∉ indH then some (classifyLowFlow s lv hv) else et
  let indL ← lookupInd s lv
  let et2 := if hv ∉ indL then some (classifyHighFlow s lv hv) else et1
  match et2 with
  | none => .error "UnboundLocalError"
  | some c =>
    Except.ok ({ s with errors := s.errors ++ [⟨line, col, c, lv, hv, fname⟩] }, et2)

/-- The double loop over (high, low) pairs at the end of visit_FunctionDef.
    Python iterates the two sets in an unspecified but fixed order; the
    model fixes the lexicographic one. -/
def checkPairs (line col : Nat) (fname : String) (s : State) : Except String State := do
  let pairs := (sortedVars s.high).flatMap
    (fun h => (sortedVars s.low).map (fun l => (h, l)))
  let r ← pairs.foldlM (fun acc p => checkPair line col fname acc.1 acc.2 p.1 p.2)
    (s, (none : Option ErrCode))
  Except.ok r.1

/-- self.lines[node.lineno - 1]. -/
def getLine (s : State) (lineno : Nat) : Except String String :=
  match s.lines.get? (lineno - 1) with
  | some l => .ok l
  | none => .error "IndexError"

/-- A unit of work for the interpreter: visiting one statement, or running
    the while-True fixpoint loop shared by visit_While and visit_For. -/
inductive Task where
  | one (st : Stmt)
  | loopw (fv : VarSet) (body : Stmt)
  deriving DecidableEq

/-- The statement visitor of the Hoare class.  Fuel decreases on every
    recursive call; with enough fuel the result is exactly the Python
    behaviour.  Statements with no visitor (return) fall through to
    generic_visit, which changes no analysis state. -/
def run : Nat → State → Task → Except String State
  | 0, _, _ => .error "out of fuel"
  | Nat.succ n, s, Task.loopw fv body => do
    let deps ← calcDeps s fv
    let prev := s.indeps
    let s1 := { s with context := s.context ∪ deps }
    let s2 ← run n s1 (.one body)
    let j ← joinD s2.indeps prev
    let s3 := { s2 with indeps := j }
    if dictBeq j prev then .ok s3 else run n s3 (.loopw fv body)
  | Nat.succ n, s, Task.one st =>
    match st with
    | .snil => .ok s
    | .scons h t => do
      let s1 ← run n s (.one h)
      run n s1 (.one t)
    | .ret _ => .ok s
    | .assign targets value lineno => do
      let line ← getLine s lineno
      let extracted ← extractFlowConfig line
      match targets with
      | [] => .error "IndexError"
      | t :: _ =>
        match extracted with
        | c :: _ =>
          let s1 := addVar s t c
          .ok { s1 with locs := insert t s1.locs }
        | [] => do
          let ind ← calcIndeps s (collectFree value)
          .ok { s with indeps := dset s.indeps t (ind \ s.context) }
    | .augassign t value => do
      let ctx2 := s.context ∪ {t}
      let ind ← calcIndeps s (collectFree value)
      .ok { s with indeps := dset s.indeps t (ind \ ctx2) }
    | .sif test body _ => do
      let oldCtx := s.context
      let fv := collectFree test
      let deps ← calcDeps s fv
      let s1 := { s with context := s.context ∪ deps }
      let interCtx := s1.context
      let s2 ← run n s1 (.one body)
      let ifInd := s2.indeps
      let s3 := { s2 with context := interCtx }
      let s4 ← run n s3 (.one body)
      let elseInd := s4.indeps
      let j ← joinD ifInd elseInd
      .ok { s4 with indeps := j, context := oldCtx }
    | .swhile test body _ => do
      let fv := collectFree test
      let oldCtx := s.context
      let s1 ← run n s (.loopw fv body)
      .ok { s1 with context := oldCtx }
    | .sfor _ iterE body _ => do
      let fv := collectFree iterE
      let oldCtx := s.context
      let s1 ← run n s (.loopw fv body)
      .ok { s1 with context := oldCtx }
    | .sfunc fname args body lineno col => do
      let line ← getLine s lineno
      let flowConf ← extractFlowConfig line
      let oldHigh := s.high
      let oldLow := s.low
      let oldLocs := s.locs
      let s1 := { s with high := ∅, low := ∅, locs := ∅ }
      let s2 := (args.zip flowConf).foldl (fun acc p => addVar acc p.1 p.2) s1
      let s3 ← run n s2 (.one body)
      let s4 ← checkPairs lineno col fname s3
      .ok { s4 with high := oldHigh, low := oldLow, locs := oldLocs }

/-- The while-True fixpoint loop of visit_While/visit_For (lines 177 to 189
    of hoare.py) with the loop-body visits abstracted into a function f,
    additionally reporting how many join iterations were performed. -/
def loopRunF (f : State → Except String State) :
    Nat → VarSet → State → Except String (State × Nat)
  | 0, _, _ => .error "out of fuel"
  | Nat.succ n, fv, s => do
    let deps ← calcDeps s fv
    let prev := s.indeps
    let s1 := { s with context := s.context ∪ deps }
    let s2 ← f s1
    let j ← joinD s2.indeps prev
    let s3 := { s2 with indeps := j }
    if dictBeq j prev then .ok (s3, 1)
    else do
      let r ← loopRunF f n fv s3
      .ok (r.1, r.2 + 1)

/-- hoare.analyse with the default variable set: collect all variables of
    the tree, build a fresh engine state and visit the tree. -/
def analyse (lines : List String) (tree : Stmt) (fuel : Nat) :
    Except String (List Diag) := do
  let s ← run fuel (initState lines (collectS false tree)) (.one tree)
  Except.ok s.errors

/-- Specification-side description of the collector's free mode, written
    from the spec's words for comparison with collectE: exactly the names
    occurring in a read (load) context, where a call contributes only its
    argument sub-expressions (never the callee). -/
def freeSpecE : Expr → VarSet
  | .name id .load => {id}
  | .name _ .store => ∅
  | .num _ => ∅
  | .binop l r => freeSpecE l ∪ freeSpecE r
  | .call _ args => freeSpecE args
  | .anil => ∅
  | .acons h t => freeSpecE h ∪ freeSpecE t

/-- Specification-side description of the collector's free mode on
    statements: read-context names of the contained expressions, excluding
    assignment write targets and a for-loop's loop variable. -/
def freeSpecS : Stmt → VarSet
  | .assign _ value _ => freeSpecE value
  | .augassign _ value => freeSpecE value
  | .sif test body orelse => freeSpecE test ∪ freeSpecS body ∪ freeSpecS orelse
  | .swhile test body orelse => freeSpecE test ∪ freeSpecS body ∪ freeSpecS orelse
  | .sfor _ iterE body orelse => freeSpecE iterE ∪ freeSpecS body ∪ freeSpecS orelse
  | .sfunc _ _ body _ _ => freeSpecS body
  | .ret value => freeSpecE value
  | .snil => ∅
  | .scons h t => freeSpecS h ∪ freeSpecS t

/-- The invariant of claim C10 on the independency map: its key set is
    exactly V (as a duplicate-free dict) and every value set is contained
    in V. -/
def InvD (d : Dict) (V : VarSet) : Prop :=
  (dkeys d).Nodup ∧ (∀ k, k ∈ dkeys d ↔ k ∈ V) ∧ ∀ k v, dlookup d k = some v → v ⊆ V

/-- The C10 invariant on an engine state. -/
def Inv (s : State) : Prop := InvD s.indeps s.all_vars

/-- All names a task may touch: for a statement its all-mode collection, for
    the internal loop task the guard's free variables and the body names. -/
def taskNames : Task → VarSet
  | .one st => collectS false st
  | .loopw fv body => fv ∪ collectS false body

/-
  Concrete fixtures used by the per-claim counterexamples and witnesses.
-/

/-- Source lines for the C1 if/else example; neither line carries a flow
    marker. -/
def c1Lines : List String := ["x = a", "x = b"]

/-- The then branch: x = a. -/
def c1Then : Stmt := .scons (.assign ["x"] (.name "a" .load) 1) .snil

/-- The else branch: x = b. -/
def c1Else : Stmt := .scons (.assign ["x"] (.name "b" .load) 2) .snil

/-- if c: x = a  else: x = b. -/
def c1If : Stmt := .sif (.name "c" .load) c1Then c1Else

/-- Tracked variables of the C1 example. -/
def c1Vars : VarSet := {"a", "b", "c", "x"}

/-- Fresh engine state for the C1 example. -/
def c1S0 : State := initState c1Lines c1Vars

/-- The branch-entry state of the C1 if statement: the pre-if state with the
    test's dependency closure (just c here) added to the context. -/
def c1Entry : State := { c1S0 with context := {"c"} }

/-- Source lines for the C2 example: one function with a High and a Low
    parameter and a body that creates no flow between them. -/
def c2Lines : List String := ["def f(h, l):  # flow: High, Low", "    return h + l"]

/-- return h + l. -/
def c2Body : Stmt := .scons (.ret (.binop (.name "h" .load) (.name "l" .load))) .snil

/-- The C2 module: a single two-parameter function without violations. -/
def c2Mod : Stmt := .scons (.sfunc "f" ["h", "l"] c2Body 1 0) .snil

/-- Source lines for the C3 example: the first function carries an invalid
    confidentiality label, the second a valid one. -/
def c3Lines : List String := ["def f(h):  # flow: Bogus", "def g(a, b):  # flow: High, Low"]

/-- Body of the first C3 function. -/
def c3FBody : Stmt := .scons (.ret (.name "h" .load)) .snil

/-- Body of the second C3 function. -/
def c3GBody : Stmt := .scons (.ret (.binop (.name "a" .load) (.name "b" .load))) .snil

/-- The function with the unparseable label. -/
def c3F : Stmt := .sfunc "f" ["h"] c3FBody 1 0

/-- The C3 module: the bad function followed by a well-labelled one. -/
def c3Mod : Stmt := .scons c3F (.scons (.sfunc "g" ["a", "b"] c3GBody 2 0) .snil)

/-- Source lines for the C4 example; no line carries a flow marker. -/
def c4Lines : List String := ["a = 1", "b = a"]

/-- The straight-line code before the C4 loop: a = 1. -/
def c4Setup : Stmt := .assign ["a"] (.num 1) 1

/-- The C4 loop body: b = a; if b: a += 1; t += 1. -/
def c4Body : Stmt :=
  .scons (.assign ["b"] (.name "a" .load) 2)
    (.scons (.sif (.name "b" .load) (.scons (.augassign "a" (.num 1)) .snil) .snil)
      (.scons (.augassign "t" (.num 1)) .snil))

/-- The whole C4 program: a = 1 followed by while b: (b = a; if b: a += 1;
    t += 1). -/
def c4Mod : Stmt := .scons c4Setup (.scons (.swhile (.name "b" .load) c4Body .snil) .snil)

/-- Tracked variables of the C4 program (its full collected variable set). -/
def c4Vars : VarSet := {"a", "b", "t"}

/-- Fresh engine state for the C4 program. -/
def c4S0 : State := initState c4Lines c4Vars

/-- Engine state at entry of the C4 while loop (after a = 1). -/
def c4Entry : State := ((run 20 c4S0 (.one c4Setup)).toOption).getD c4S0

/-- The loop-body visitor of the C4 while statement. -/
def c4BodyF : State → Except String State := fun u => run 20 u (.one c4Body)

/-- A one-variable state for the C4 witness. -/
def c4W0 : State := initState [] {"a"}

/-- Source lines for the C5/C9 assignment examples. -/
def c5Lines : List String := ["x = a"]

/-- Tracked variables of the C5/C9 examples. -/
def c5Vars : VarSet := {"a", "x"}

/-- Fresh engine state for the C5/C9 examples. -/
def c5S0 : State := initState c5Lines c5Vars

/-- Resulting state of visiting x = a from c5S0. -/
def c9W : State :=
  ((run 9 c5S0 (.one (.assign ["x", "a"] (.name "a" .load) 1))).toOption).getD c5S0

/-- First concrete dict for the C6 witness. -/
def c6A : Dict := [("a", {"a", "b"}), ("b", {"a"})]

/-- Second concrete dict for the C6 witness, same keys in another order. -/
def c6B : Dict := [("b", {"b", "a"}), ("a", {"b"})]

/-- join of c6A with c6B. -/
def c6J : Dict := [("a", {"b"}), ("b", {"a"})]

/-- join of c6B with c6A. -/
def c6J2 : Dict := [("b", {"a"}), ("a", {"b"})]

/-- Empty-universe state for the C7 witness. -/
def c7S0 : State := initState [] ∅

/-- A minimal if statement for the C7 witness. -/
def c7If : Stmt := .sif (.num 0) .snil .snil

/-- A minimal while statement for the C7 witness. -/
def c7While : Stmt := .swhile (.num 0) .snil .snil

/-- A minimal for statement for the C7 witness. -/
def c7For : Stmt := .sfor "i" (.num 0) .snil .snil

/-- Resulting state of visiting the minimal if. -/
def c7IfW : State := ((run 6 c7S0 (.one c7If)).toOption).getD c7S0

/-- Resulting state of visiting the minimal while. -/
def c7WhileW : State := ((run 6 c7S0 (.one c7While)).toOption).getD c7S0

/-- Resulting state of visiting the minimal for. -/
def c7ForW : State := ((run 6 c7S0 (.one c7For)).toOption).getD c7S0

/-- Statement for the C10 witness: x = a. -/
def c10St : Stmt := .assign ["x"] (.name "a" .load) 1

/-- Resulting state of the C10 witness run. -/
def c10W : State := ((run 9 c5S0 (.one c10St)).toOption).getD c5S0

/-
  Helper lemmas about the Except monad and the dict operations.
-/

theorem except_bind_ok {a b : Type} (x : Except String a) (f : a → Except String b) (y : b) :
    (x >>= f) = .ok y ↔ ∃ v, x = .ok v ∧ f v = .ok y := by
  cases x <;> simp [Bind.bind, Except.bind]

theorem dlookup_dset_self (d : Dict) (k : String) (v : VarSet) :
    dlookup (dset d k v) k = some v := by
  induction d with
  | nil => simp [dset, dlookup]
  | cons kv rest ih =>
    obtain ⟨k1, v1⟩ := kv
    by_cases h : k1 = k <;> simp [dset, dlookup, h, ih]

theorem dlookup_dset_ne (d : Dict) (k : String) (v : VarSet) (x : String) (hx : x ≠ k) :
    dlookup (dset d k v) x = dlookup d x := by
  have hkx : ¬(k = x) := fun e => hx e.symm
  induction d with
  | nil => simp [dset, dlookup, hkx]
  | cons kv rest ih =>
    obtain ⟨k1, v1⟩ := kv
    by_cases h : k1 = k
    · subst h
      simp [dset, dlookup, hkx]
    · simp [dset, dlookup, h, ih]

theorem dkeys_dset_of_mem (d : Dict) (k : String) (v : VarSet) (h : k ∈ dkeys d) :
    dkeys (dset d k v) = dkeys d := by
  induction d with
  | nil => simp [dkeys] at h
  | cons kv rest ih =>
    obtain ⟨k1, v1⟩ := kv
    by_cases hk : k1 = k
    · simp [dset, hk, dkeys]
    · simp only [dkeys, List.map_cons, List.mem_cons] at h
      rcases h with h | h
      · exact absurd h.symm hk
      · have ih2 := ih (by simpa [dkeys] using h)
        simp only [dset, if_neg hk, dkeys, List.map_cons]
        simp only [dkeys] at ih2
        rw [ih2]

theorem dlookup_isSome_iff (d : Dict) (x : String) :
    (dlookup d x).isSome ↔ x ∈ dkeys d := by
  induction d with
  | nil => simp [dlookup, dkeys]
  | cons kv rest ih =>
    obtain ⟨k1, v1⟩ := kv
    simp only [dkeys, List.map_cons, List.mem_cons]
    by_cases h : k1 = x
    · subst h
      simp [dlookup]
    · simp only [dlookup, if_neg h]
      rw [ih]
      simp only [dkeys]
      constructor
      · exact Or.inr
      · rintro (he | hm)
        · exact absurd he.symm h
        · exact hm

theorem mem_dkeys_cons (k1 : String) (v1 : VarSet) (rest : Dict) (x : String)
    (hx : x ∈ dkeys rest) : x ∈ dkeys ((k1, v1) :: rest) := by
  simp only [dkeys, List.map_cons, List.mem_cons]
  exact Or.inr (by simpa [dkeys] using hx)

theorem dlookup_of_mem_nodup (d : Dict) (h : (dkeys d).Nodup) (k : String) (v : VarSet)
    (hm : (k, v) ∈ d) : dlookup d k = some v := by
  induction d with
  | nil => simp at hm
  | cons kv rest ih =>
    obtain ⟨k1, v1⟩ := kv
    simp only [dkeys, List.map_cons, List.nodup_cons] at h
    rcases List.mem_cons.mp hm with he | hm2
    · cases he
      simp [dlookup]
    · have hk : ¬(k1 = k) := by
        intro e
        subst e
        exact h.1 (by simpa [dkeys] using List.mem_map_of_mem Prod.fst hm2)
      have ih2 := ih (by simpa [dkeys] using h.2) hm2
      simp [dlookup, hk, ih2]

theorem dictBeq_refl (d : Dict) (h : (dkeys d).Nodup) : dictBeq d d = true := by
  simp only [dictBeq, Bool.and_eq_true, List.all_eq_true, decide_eq_true_eq]
  exact ⟨fun kv hkv => dlookup_of_mem_nodup d h kv.1 kv.2 hkv,
    fun kv hkv => dlookup_of_mem_nodup d h kv.1 kv.2 hkv⟩

theorem joinD_cons_irrel (a : Dict) (k : String) (w : VarSet) (b : Dict)
    (h : ∀ x ∈ dkeys a, x ≠ k) : joinD a ((k, w) :: b) = joinD a b := by
  induction a with
  | nil => simp [joinD]
  | cons kv rest ih =>
    obtain ⟨k1, v1⟩ := kv
    have hk1 : k1 ≠ k := h k1 (by simp [dkeys])
    have hk : ¬(k = k1) := fun e => hk1 e.symm
    have harg : ∀ x ∈ dkeys rest, x ≠ k := fun x hx => h x (mem_dkeys_cons k1 v1 rest x hx)
    simp only [joinD, dlookup, if_neg hk, ih harg]

theorem joinD_ok_char : ∀ (a b j : Dict), joinD a b = .ok j →
    dkeys j = dkeys a ∧
    ∀ k v, dlookup j k = some v →
      ∃ va vb, dlookup a k = some va ∧ dlookup b k = some vb ∧ v = va ∩ vb := by
  intro a
  induction a with
  | nil =>
    intro b j h
    simp only [joinD] at h
    cases h
    exact ⟨rfl, by simp [dlookup]⟩
  | cons kv rest ih =>
    intro b j h
    obtain ⟨k1, v1⟩ := kv
    cases hb : dlookup b k1 with
    | none => simp [joinD, hb] at h
    | some w =>
      simp only [joinD, hb] at h
      rw [except_bind_ok] at h
      obtain ⟨r, hr, hj⟩ := h
      cases hj
      obtain ⟨hk, hv⟩ := ih b r hr
      constructor
      · simp only [dkeys, List.map_cons]
        simp only [dkeys] at hk
        rw [hk]
      · intro k v hl
        by_cases e : k1 = k
        · subst e
          have hveq : v = v1 ∩ w := by
            have : dlookup ((k1, v1 ∩ w) :: r) k1 = some (v1 ∩ w) := by simp [dlookup]
            rw [this] at hl
            exact (Option.some.inj hl).symm
          exact ⟨v1, w, by simp [dlookup], hb, hveq⟩
        · have : dlookup ((k1, v1 ∩ w) :: r) k = dlookup r k := by simp [dlookup, e]
          rw [this] at hl
          obtain ⟨va, vb, h1, h2, h3⟩ := hv k v hl
          exact ⟨va, vb, by simp [dlookup, e, h1], h2, h3⟩

theorem joinD_self (d : Dict) (h : (dkeys d).Nodup) : joinD d d = .ok d := by
  have aux : ∀ (a : Dict), (dkeys a).Nodup →
      ∀ (b : Dict), (∀ x ∈ dkeys a, dlookup b x = dlookup a x) → joinD a b = .ok a := by
    intro a
    induction a with
    | nil => intro _ b _; simp [joinD]
    | cons kv rest ih =>
      intro hnd b hb
      obtain ⟨k1, v1⟩ := kv
      simp only [dkeys, List.map_cons, List.nodup_cons] at hnd
      have hb1 : dlookup b k1 = some v1 := by
        rw [hb k1 (by simp [dkeys])]
        simp [dlookup]
      have hrest : ∀ x ∈ dkeys rest, dlookup b x = dlookup rest x := by
        intro x hx
        have hne : ¬(k1 = x) := by
          intro e
          exact hnd.1 (e ▸ (by simpa [dkeys] using hx))
        rw [hb x (mem_dkeys_cons k1 v1 rest x hx)]
        simp [dlookup, hne]
      have ihr := ih (by simpa [dkeys] using hnd.2) b hrest
      simp [joinD, hb1, ihr, Bind.bind, Except.bind, Finset.inter_self]
  exact aux d h d (fun x _ => rfl)

theorem joinD_forall2 : ∀ (a b : Dict), dkeys a = dkeys b → (dkeys b).Nodup →
    ∃ j, joinD a b = .ok j ∧ dkeys j = dkeys a ∧
      List.Forall₂ (fun x y => x.1 = y.1 ∧ x.2 ⊆ y.2) j b := by
  intro a
  induction a with
  | nil =>
    intro b hk _
    have hb : b = [] := by
      cases b with
      | nil => rfl
      | cons kv rest => simp [dkeys] at hk
    subst hb
    exact ⟨[], rfl, rfl, List.Forall₂.nil⟩
  | cons kv rest ih =>
    intro b hk hnd
    obtain ⟨k1, v1⟩ := kv
    cases b with
    | nil => simp [dkeys] at hk
    | cons kw brest =>
      obtain ⟨k2, w⟩ := kw
      simp only [dkeys, List.map_cons, List.cons.injEq] at hk
      obtain ⟨he, ht⟩ := hk
      subst he
      simp only [dkeys, List.map_cons, List.nodup_cons] at hnd
      obtain ⟨j2, hj2, hkeys2, hf2⟩ := ih brest (by simpa [dkeys] using ht)
        (by simpa [dkeys] using hnd.2)
      refine ⟨(k1, v1 ∩ w) :: j2, ?_, ?_, ?_⟩
      · have hirr : joinD rest ((k1, w) :: brest) = joinD rest brest := by
          refine joinD_cons_irrel rest k1 w brest ?_
          intro x hx
          intro e
          apply hnd.1
          subst e
          rw [← ht]
          simpa [dkeys] using hx
        simp [joinD, dlookup, hirr, hj2, Bind.bind, Except.bind]
      · simp only [dkeys, List.map_cons]
        simp only [dkeys] at hkeys2
        rw [hkeys2]
      · exact List.Forall₂.cons ⟨rfl, Finset.inter_subset_right⟩ hf2

theorem dsize_le_forall2 (j b : Dict)
    (h : List.Forall₂ (fun (x y : String × VarSet) => x.1 = y.1 ∧ x.2 ⊆ y.2) j b) :
    dsize j ≤ dsize b := by
  induction h with
  | nil => simp [dsize]
  | cons hxy _ ih =>
    simp only [dsize, List.map_cons, List.sum_cons]
    simp only [dsize] at ih
    exact Nat.add_le_add (Finset.card_le_card hxy.2) ih

theorem forall2_dsize_eq (j b : Dict)
    (h : List.Forall₂ (fun (x y : String × VarSet) => x.1 = y.1 ∧ x.2 ⊆ y.2) j b)
    (hs : dsize j = dsize b) : j = b := by
  induction h with
  | nil => rfl
  | @cons x y l1 l2 hxy htail ih =>
    simp only [dsize, List.map_cons, List.sum_cons] at hs
    have h1 : x.2.card ≤ y.2.card := Finset.card_le_card hxy.2
    have h2 : dsize l1 ≤ dsize l2 := dsize_le_forall2 l1 l2 htail
    simp only [dsize] at h2 hs
    have hc : x.2.card = y.2.card := by omega
    have hv : x.2 = y.2 := Finset.eq_of_subset_of_card_le hxy.2 (le_of_eq hc.symm)
    have hx2 : x = y := Prod.ext hxy.1 hv
    have ht : l1 = l2 := by
      apply ih
      simp only [dsize]
      omega
    rw [hx2, ht]

theorem dsize_lt_of_not_beq (j b : Dict)
    (hf : List.Forall₂ (fun (x y : String × VarSet) => x.1 = y.1 ∧ x.2 ⊆ y.2) j b)
    (hnd : (dkeys b).Nodup) (hne : dictBeq j b = false) : dsize j < dsize b := by
  have hle := dsize_le_forall2 j b hf
  rcases Nat.lt_or_ge (dsize j) (dsize b) with h | h
  · exact h
  · exfalso
    have heq : dsize j = dsize b := Nat.le_antisymm hle h
    have hjb : j = b := forall2_dsize_eq j b hf heq
    subst hjb
    rw [dictBeq_refl j hnd] at hne
    cases hne

theorem mapE_ok_of_forall {a b : Type} (f : a → Except String b) :
    ∀ (l : List a), (∀ x ∈ l, ∃ y, f x = .ok y) → ∃ ys, mapE f l = .ok ys := by
  intro l
  induction l with
  | nil => exact fun _ => ⟨[], rfl⟩
  | cons x l ih =>
    intro h
    obtain ⟨y, hy⟩ := h x (List.mem_cons_self x l)
    obtain ⟨ys, hys⟩ := ih (fun z hz => h z (List.mem_cons_of_mem x hz))
    exact ⟨y :: ys, by simp [mapE, hy, hys, Bind.bind, Except.bind]⟩

theorem mapE_cons_ok {a b : Type} (f : a → Except String b) (x : a) (l : List a)
    (ys : List b) (h : mapE f (x :: l) = .ok ys) :
    ∃ y ys2, f x = .ok y ∧ mapE f l = .ok ys2 ∧ ys = y :: ys2 := by
  simp only [mapE] at h
  rw [except_bind_ok] at h
  obtain ⟨y, hy, h2⟩ := h
  rw [except_bind_ok] at h2
  obtain ⟨ys2, hys2, h3⟩ := h2
  cases h3
  exact ⟨y, ys2, hy, hys2, rfl⟩

theorem mem_sortedVars (fv : VarSet) (x : String) : x ∈ sortedVars fv ↔ x ∈ fv := by
  obtain ⟨m, hnd⟩ := fv
  rw [Finset.mem_mk]
  unfold sortedVars
  revert hnd
  induction m using Quotient.inductionOn with
  | h l =>
    intro hnd
    exact (List.mem_insertionSort _).trans Multiset.mem_coe.symm

theorem sortedVars_nodup (fv : VarSet) : (sortedVars fv).Nodup := by
  obtain ⟨m, hnd⟩ := fv
  unfold sortedVars
  revert hnd
  induction m using Quotient.inductionOn with
  | h l =>
    intro hnd
    exact (List.perm_insertionSort _ l).nodup_iff.mpr hnd

theorem sortedVars_length (fv : VarSet) : (sortedVars fv).length = fv.card := by
  obtain ⟨m, hnd⟩ := fv
  unfold sortedVars
  revert hnd
  induction m using Quotient.inductionOn with
  | h l =>
    intro hnd
    exact List.length_insertionSort _ l

theorem sortedVars_ne_nil (fv : VarSet) (h : fv ≠ ∅) : sortedVars fv ≠ [] := by
  intro hnil
  apply h
  apply Finset.card_eq_zero.mp
  rw [← sortedVars_length fv, hnil]
  rfl

theorem lookupInd_ok_inv (s : State) (x : String) (v : VarSet)
    (h : lookupInd s x = .ok v) : dlookup s.indeps x = some v := by
  unfold lookupInd at h
  cases hd : dlookup s.indeps x <;> rw [hd] at h
  · cases h
  · cases h
    rfl

theorem lookupInd_ok (s : State) (x : String) (h : x ∈ dkeys s.indeps) :
    ∃ v, lookupInd s x = .ok v ∧ dlookup s.indeps x = some v := by
  cases hl : dlookup s.indeps x with
  | none =>
    rw [← dlookup_isSome_iff] at h
    rw [hl] at h
    cases h
  | some v => exact ⟨v, by simp [lookupInd, hl], rfl⟩

theorem calcDeps_ok (s : State) (fv : VarSet) (h : ∀ x ∈ fv, x ∈ dkeys s.indeps) :
    ∃ v, calcDeps s fv = .ok v := by
  have hall : ∀ x ∈ sortedVars fv,
      ∃ y, (lookupInd s x >>= fun v => Except.ok (s.all_vars \ v)) = .ok y := by
    intro x hx
    obtain ⟨v, hv, _⟩ := lookupInd_ok s x (h x ((mem_sortedVars fv x).mp hx))
    exact ⟨s.all_vars \ v, by rw [except_bind_ok]; exact ⟨v, hv, rfl⟩⟩
  obtain ⟨vals, hvals⟩ :=
    mapE_ok_of_forall (fun x => lookupInd s x >>= fun v => Except.ok (s.all_vars \ v))
      (sortedVars fv) hall
  refine ⟨unionL vals, ?_⟩
  unfold calcDeps
  rw [except_bind_ok]
  refine ⟨vals, ?_, rfl⟩
  exact hvals

theorem foldl_inter_subset (l : List VarSet) : ∀ (x : VarSet),
    l.foldl (fun u w => u ∩ w) x ⊆ x := by
  induction l with
  | nil => intro x; simp
  | cons y l ih =>
    intro x
    simp only [List.foldl_cons]
    exact subset_trans (ih (x ∩ y)) Finset.inter_subset_left

theorem intersectL_head_subset (v : VarSet) (rest : List VarSet) :
    intersectL (v :: rest) ⊆ v := by
  simp only [intersectL, List.foldl_cons, Finset.inter_self]
  exact foldl_inter_subset rest v

theorem calcIndeps_subset (s : State) (fv ind : VarSet) (hInv : Inv s)
    (h : calcIndeps s fv = .ok ind) : ind ⊆ s.all_vars := by
  by_cases he : fv = ∅
  · simp only [calcIndeps, if_pos he] at h
    cases h
    exact subset_rfl
  · simp only [calcIndeps, if_neg he] at h
    rw [except_bind_ok] at h
    obtain ⟨vals, hvals, hok⟩ := h
    cases hok
    cases hs : sortedVars fv with
    | nil => exact absurd hs (sortedVars_ne_nil fv he)
    | cons x xs =>
      rw [hs] at hvals
      obtain ⟨v, vs, hv, hvs, hcons⟩ := mapE_cons_ok _ _ _ _ hvals
      subst hcons
      have hvV : v ⊆ s.all_vars := hInv.2.2 x v (lookupInd_ok_inv s x v hv)
      exact subset_trans (intersectL_head_subset v vs) hvV

theorem checkPair_state (line col : Nat) (fname : String) (s : State) (et : Option ErrCode)
    (hv lv : String) (s2 : State) (et2 : Option ErrCode)
    (h : checkPair line col fname s et hv lv = .ok (s2, et2)) :
    s2.indeps = s.indeps ∧ s2.all_vars = s.all_vars ∧ s2.context = s.context ∧
      s2.high = s.high ∧ s2.low = s.low ∧ s2.locs = s.locs ∧ s2.lines = s.lines := by
  simp only [checkPair] at h
  rw [except_bind_ok] at h
  obtain ⟨iH, hiH, h⟩ := h
  rw [except_bind_ok] at h
  obtain ⟨iL, hiL, h⟩ := h
  cases hm : (if hv ∉ iL then some (classifyHighFlow s lv hv)
      else if lv ∉ iH then some (classifyLowFlow s lv hv) else et) with
  | none =>
    rw [hm] at h
    cases h
  | some c =>
    rw [hm] at h
    cases h
    exact ⟨rfl, rfl, rfl, rfl, rfl, rfl, rfl⟩

theorem checkPairs_state (line col : Nat) (fname : String) (s s2 : State)
    (h : checkPairs line col fname s = .ok s2) :
    s2.indeps = s.indeps ∧ s2.all_vars = s.all_vars ∧ s2.context = s.context ∧
      s2.high = s.high ∧ s2.low = s.low ∧ s2.locs = s.locs ∧ s2.lines = s.lines := by
  have aux : ∀ (pairs : List (String × String)) (acc : State × Option ErrCode)
      (r : State × Option ErrCode),
      pairs.foldlM (fun a p => checkPair line col fname a.1 a.2 p.1 p.2) acc = .ok r →
      r.1.indeps = acc.1.indeps ∧ r.1.all_vars = acc.1.all_vars ∧
        r.1.context = acc.1.context ∧ r.1.high = acc.1.high ∧ r.1.low = acc.1.low ∧
        r.1.locs = acc.1.locs ∧ r.1.lines = acc.1.lines := by
    intro pairs
    induction pairs with
    | nil =>
      intro acc r h
      simp only [List.foldlM_nil] at h
      cases h
      exact ⟨rfl, rfl, rfl, rfl, rfl, rfl, rfl⟩
    | cons p rest ih =>
      intro acc r h
      simp only [List.foldlM_cons] at h
      rw [except_bind_ok] at h
      obtain ⟨⟨a1, e1⟩, ha, h⟩ := h
      obtain ⟨q1, q2, q3, q4, q5, q6, q7⟩ :=
        checkPair_state line col fname acc.1 acc.2 p.1 p.2 a1 e1 ha
      obtain ⟨w1, w2, w3, w4, w5, w6, w7⟩ := ih (a1, e1) r h
      exact ⟨w1.trans q1, w2.trans q2, w3.trans q3, w4.trans q4, w5.trans q5,
        w6.trans q6, w7.trans q7⟩
  simp only [checkPairs] at h
  rw [except_bind_ok] at h
  obtain ⟨r, hr, hok⟩ := h
  cases hok
  exact aux _ (s, none) r hr

/-
  The claims.
-/

/-- C8: the variable collector in free mode returns exactly the names in
    read (load) context of the subtree, excluding write targets, excluding a
    call expression's callee (only argument sub-expressions contribute), and
    excluding a for-loop's loop variable: it coincides with the
    specification-side description freeSpecE/freeSpecS. -/
theorem claim_C8_collector_free :
    (∀ e, collectE true e = freeSpecE e) ∧ ∀ st, collectS true st = freeSpecS st := by
  have he : ∀ e, collectE true e = freeSpecE e := by
    intro e
    induction e with
    | name id ctx => cases ctx <;> simp [collectE, freeSpecE]
    | num n => rfl
    | binop l r ihl ihr => simp [collectE, freeSpecE, ihl, ihr]
    | call f args ihf iha => simp [collectE, freeSpecE, iha]
    | anil => rfl
    | acons h t ih1 ih2 => simp [collectE, freeSpecE, ih1, ih2]
  refine ⟨he, ?_⟩
  intro st
  induction st with
  | assign targets value lineno => simp [collectS, freeSpecS, he]
  | augassign t value => simp [collectS, freeSpecS, he]
  | sif test b o ihb iho => simp [collectS, freeSpecS, he, ihb, iho]
  | swhile test b o ihb iho => simp [collectS, freeSpecS, he, ihb, iho]
  | sfor t it b o ihb iho => simp [collectS, freeSpecS, he, ihb, iho]
  | sfunc nm args b lineno col ihb => simp [collectS, freeSpecS, ihb]
  | ret v => simp [collectS, freeSpecS, he]
  | snil => rfl
  | scons h t ih1 ih2 => simp [collectS, freeSpecS, ih1, ih2]

/-- C6: join is idempotent (join(A,A) == A) and commutative (as Python dict
    equality), and per key join(A,B)[k] is a subset of A[k] and of B[k], for
    all independency maps (duplicate-free dicts) A and B. -/
theorem claim_C6_join_props (A B : Dict)
    (hA : (dkeys A).Nodup) (hB : (dkeys B).Nodup) :
    joinD A A = .ok A ∧
    (∀ J J2, joinD A B = .ok J → joinD B A = .ok J2 → dictBeq J J2 = true) ∧
    (∀ J k v, joinD A B = .ok J → dlookup J k = some v →
      ∃ va vb, dlookup A k = some va ∧ dlookup B k = some vb ∧ v ⊆ va ∧ v ⊆ vb) := by
  refine ⟨joinD_self A hA, ?_, ?_⟩
  · intro J J2 hJ hJ2
    obtain ⟨hkJ, hchJ⟩ := joinD_ok_char A B J hJ
    obtain ⟨hkJ2, hchJ2⟩ := joinD_ok_char B A J2 hJ2
    have hnodJ : (dkeys J).Nodup := by rw [hkJ]; exact hA
    have hnodJ2 : (dkeys J2).Nodup := by rw [hkJ2]; exact hB
    simp only [dictBeq, Bool.and_eq_true, List.all_eq_true, decide_eq_true_eq]
    constructor
    · intro kv hkv
      have hJk : dlookup J kv.1 = some kv.2 := dlookup_of_mem_nodup J hnodJ kv.1 kv.2 hkv
      obtain ⟨va, vb, hva, hvb, hv⟩ := hchJ kv.1 kv.2 hJk
      have hmem : kv.1 ∈ dkeys J2 := by
        rw [hkJ2, ← dlookup_isSome_iff, hvb]
        rfl
      obtain ⟨v2, hv2⟩ := Option.isSome_iff_exists.mp ((dlookup_isSome_iff J2 kv.1).mpr hmem)
      obtain ⟨vb2, va2, hvb2, hva2, hveq2⟩ := hchJ2 kv.1 v2 hv2
      rw [hva] at hva2
      rw [hvb] at hvb2
      cases hva2
      cases hvb2
      rw [hv2, hveq2, hv, Finset.inter_comm]
    · intro kv hkv
      have hJ2k : dlookup J2 kv.1 = some kv.2 := dlookup_of_mem_nodup J2 hnodJ2 kv.1 kv.2 hkv
      obtain ⟨vb, va, hvb, hva, hv⟩ := hchJ2 kv.1 kv.2 hJ2k
      have hmem : kv.1 ∈ dkeys J := by
        rw [hkJ, ← dlookup_isSome_iff, hva]
        rfl
      obtain ⟨v1, hv1⟩ := Option.isSome_iff_exists.mp ((dlookup_isSome_iff J kv.1).mpr hmem)
      obtain ⟨va2, vb2, hva2, hvb2, hveq1⟩ := hchJ kv.1 v1 hv1
      rw [hva] at hva2
      rw [hvb] at hvb2
      cases hva2
      cases hvb2
      rw [hv1, hveq1, hv, Finset.inter_comm]
  · intro J k v hJ hlk
    obtain ⟨_, hch⟩ := joinD_ok_char A B J hJ
    obtain ⟨va, vb, hva, hvb, hv⟩ := hch k v hlk
    subst hv
    exact ⟨va, vb, hva, hvb, Finset.inter_subset_left, Finset.inter_subset_right⟩

/-- Witness for C6 at concrete dicts with the same keys in different
    insertion orders. -/
theorem claim_C6_join_props_witness :
    joinD c6A c6A = .ok c6A ∧ dictBeq c6J c6J2 = true ∧
    (∃ va vb, dlookup c6A "a" = some va ∧ dlookup c6B "a" = some vb ∧
      ({"b"} : VarSet) ⊆ va ∧ ({"b"} : VarSet) ⊆ vb) :=
  ⟨(claim_C6_join_props c6A c6B (by decide) (by decide)).1,
   (claim_C6_join_props c6A c6B (by decide) (by decide)).2.1 c6J c6J2 (by decide) (by decide),
   (claim_C6_join_props c6A c6B (by decide) (by decide)).2.2 c6J "a" {"b"}
     (by decide) (by decide)⟩

theorem addVar_indeps (s : State) (x : String) (c : Confidentiality) :
    (addVar s x c).indeps = s.indeps := by cases c <;> rfl

theorem addVar_all_vars (s : State) (x : String) (c : Confidentiality) :
    (addVar s x c).all_vars = s.all_vars := by cases c <;> rfl

theorem addVar_context (s : State) (x : String) (c : Confidentiality) :
    (addVar s x c).context = s.context := by cases c <;> rfl

theorem addVar_locs (s : State) (x : String) (c : Confidentiality) :
    (addVar s x c).locs = s.locs := by cases c <;> rfl

theorem addVar_lines (s : State) (x : String) (c : Confidentiality) :
    (addVar s x c).lines = s.lines := by cases c <;> rfl

theorem run_snil_char (n : Nat) (s : State) : run (n + 1) s (.one .snil) = .ok s := rfl

theorem run_ret_char (n : Nat) (s : State) (e : Expr) :
    run (n + 1) s (.one (.ret e)) = .ok s := rfl

theorem run_scons_char (n : Nat) (s : State) (h t : Stmt) :
    run (n + 1) s (.one (.scons h t)) =
      (run n s (.one h) >>= fun s1 => run n s1 (.one t)) := rfl

theorem run_assign_char (n : Nat) (s : State) (t : String) (ts : List String)
    (value : Expr) (lineno : Nat) :
    run (n + 1) s (.one (.assign (t :: ts) value lineno)) =
      (getLine s lineno >>= fun line =>
        extractFlowConfig line >>= fun extracted =>
          match extracted with
          | c :: _ =>
            let s1 := addVar s t c
            .ok { s1 with locs := insert t s1.locs }
          | [] =>
            calcIndeps s (collectFree value) >>= fun ind =>
              .ok { s with indeps := dset s.indeps t (ind \ s.context) }) := rfl

theorem run_augassign_char (n : Nat) (s : State) (t : String) (value : Expr) :
    run (n + 1) s (.one (.augassign t value)) =
      (calcIndeps s (collectFree value) >>= fun ind =>
        .ok { s with indeps := dset s.indeps t (ind \ (s.context ∪ {t})) }) := rfl

theorem run_sif_char (n : Nat) (s : State) (test : Expr) (body orelse : Stmt) :
    run (n + 1) s (.one (.sif test body orelse)) =
      (calcDeps s (collectFree test) >>= fun deps =>
        run n { s with context := s.context ∪ deps } (.one body) >>= fun s2 =>
          run n { s2 with context := s.context ∪ deps } (.one body) >>= fun s4 =>
            joinD s2.indeps s4.indeps >>= fun j =>
              .ok { s4 with indeps := j, context := s.context }) := rfl

theorem run_swhile_char (n : Nat) (s : State) (test : Expr) (body orelse : Stmt) :
    run (n + 1) s (.one (.swhile test body orelse)) =
      (run n s (.loopw (collectFree test) body) >>= fun s1 =>
        .ok { s1 with context := s.context }) := rfl

theorem run_sfor_char (n : Nat) (s : State) (tgt : String) (iterE : Expr)
    (body orelse : Stmt) :
    run (n + 1) s (.one (.sfor tgt iterE body orelse)) =
      (run n s (.loopw (collectFree iterE) body) >>= fun s1 =>
        .ok { s1 with context := s.context }) := rfl

theorem run_sfunc_char (n : Nat) (s : State) (fname : String) (args : List String)
    (body : Stmt) (lineno col : Nat) :
    run (n + 1) s (.one (.sfunc fname args body lineno col)) =
      (getLine s lineno >>= fun line =>
        extractFlowConfig line >>= fun flowConf =>
          run n ((args.zip flowConf).foldl (fun acc p => addVar acc p.1 p.2)
              { s with high := ∅, low := ∅, locs := ∅ }) (.one body) >>= fun s3 =>
            checkPairs lineno col fname s3 >>= fun s4 =>
              .ok { s4 with high := s.high, low := s.low, locs := s.locs }) := rfl

theorem run_loopw_char (n : Nat) (s : State) (fv : VarSet) (body : Stmt) :
    run (n + 1) s (.loopw fv body) =
      (calcDeps s fv >>= fun deps =>
        run n { s with context := s.context ∪ deps } (.one body) >>= fun s2 =>
          joinD s2.indeps s.indeps >>= fun j =>
            if dictBeq j s.indeps then .ok { s2 with indeps := j }
            else run n { s2 with indeps := j } (.loopw fv body)) := rfl

/-- C5: visiting an assignment whose source line carries no inline
    confidentiality annotation sets the (first) target's entry to
    calc_indeps(free(value)) minus the current Context and leaves every
    other variable's entry unchanged. -/
theorem claim_C5_assign (n : Nat) (s : State) (t : String) (ts : List String)
    (value : Expr) (lineno : Nat) (line : String) (ind : VarSet)
    (hl : getLine s lineno = .ok line)
    (hx : extractFlowConfig line = .ok [])
    (hc : calcIndeps s (collectFree value) = .ok ind) :
    run (n + 1) s (.one (.assign (t :: ts) value lineno)) =
      .ok { s with indeps := dset s.indeps t (ind \ s.context) } ∧
    dlookup (dset s.indeps t (ind \ s.context)) t = some (ind \ s.context) ∧
    ∀ v, v ≠ t → dlookup (dset s.indeps t (ind \ s.context)) v = dlookup s.indeps v := by
  refine ⟨?_, dlookup_dset_self s.indeps t (ind \ s.context),
    fun v hv => dlookup_dset_ne s.indeps t (ind \ s.context) v hv⟩
  rw [run_assign_char, except_bind_ok]
  refine ⟨line, hl, ?_⟩
  rw [except_bind_ok]
  refine ⟨[], hx, ?_⟩
  show (calcIndeps s (collectFree value) >>= fun ind =>
    Except.ok { s with indeps := dset s.indeps t (ind \ s.context) }) =
    Except.ok { s with indeps := dset s.indeps t (ind \ s.context) }
  rw [except_bind_ok]
  exact ⟨ind, hc, rfl⟩

/-- Witness for C5: x = a over tracked variables a and x. -/
theorem claim_C5_assign_witness :
    run 9 c5S0 (.one (.assign ["x"] (.name "a" .load) 1)) =
      .ok { c5S0 with indeps := dset c5S0.indeps "x" (({"x"} : VarSet) \ c5S0.context) } ∧
    dlookup (dset c5S0.indeps "x" (({"x"} : VarSet) \ c5S0.context)) "x" =
      some (({"x"} : VarSet) \ c5S0.context) :=
  ⟨(claim_C5_assign 8 c5S0 "x" [] (.name "a" .load) 1 "x = a" {"x"} (by decide) (by decide)
      (by decide)).1,
   (claim_C5_assign 8 c5S0 "x" [] (.name "a" .load) 1 "x = a" {"x"} (by decide) (by decide)
      (by decide)).2.1⟩

/-- C7: for if, while and for statements, the Context after the visit
    completes equals the Context before the visit began. -/
theorem claim_C7_context_restored :
    (∀ n s test body orelse s2, run (n + 1) s (.one (.sif test body orelse)) = .ok s2 →
      s2.context = s.context) ∧
    (∀ n s test body orelse s2, run (n + 1) s (.one (.swhile test body orelse)) = .ok s2 →
      s2.context = s.context) ∧
    (∀ n s tgt iterE body orelse s2, run (n + 1) s (.one (.sfor tgt iterE body orelse)) = .ok s2 →
      s2.context = s.context) := by
  refine ⟨?_, ?_, ?_⟩
  · intro n s test body orelse s2 h
    rw [run_sif_char, except_bind_ok] at h
    obtain ⟨deps, _, h⟩ := h
    rw [except_bind_ok] at h
    obtain ⟨sa, _, h⟩ := h
    rw [except_bind_ok] at h
    obtain ⟨sb, _, h⟩ := h
    rw [except_bind_ok] at h
    obtain ⟨j, _, h⟩ := h
    cases h
    rfl
  · intro n s test body orelse s2 h
    rw [run_swhile_char, except_bind_ok] at h
    obtain ⟨s1, _, h⟩ := h
    cases h
    rfl
  · intro n s tgt iterE body orelse s2 h
    rw [run_sfor_char, except_bind_ok] at h
    obtain ⟨s1, _, h⟩ := h
    cases h
    rfl

/-- Witness for C7 at minimal if, while and for statements. -/
theorem claim_C7_context_restored_witness :
    (run 6 c7S0 (.one c7If) = .ok c7IfW ∧ c7IfW.context = c7S0.context) ∧
    (run 6 c7S0 (.one c7While) = .ok c7WhileW ∧ c7WhileW.context = c7S0.context) ∧
    (run 6 c7S0 (.one c7For) = .ok c7ForW ∧ c7ForW.context = c7S0.context) :=
  ⟨⟨by decide, claim_C7_context_restored.1 5 c7S0 (.num 0) .snil .snil c7IfW (by decide)⟩,
   ⟨by decide, claim_C7_context_restored.2.1 5 c7S0 (.num 0) .snil .snil c7WhileW (by decide)⟩,
   ⟨by decide, claim_C7_context_restored.2.2 5 c7S0 "i" (.num 0) .snil .snil c7ForW
     (by decide)⟩⟩

/-- C9: for an assignment with several targets only the first target's
    independency entry may change; every other variable's entry (the other
    targets included) is left unchanged. -/
theorem claim_C9_first_target_only (n : Nat) (s s2 : State) (t : String) (ts : List String)
    (value : Expr) (lineno : Nat)
    (h : run (n + 1) s (.one (.assign (t :: ts) value lineno)) = .ok s2) :
    ∀ v, v ≠ t → dlookup s2.indeps v = dlookup s.indeps v := by
  intro v hv
  rw [run_assign_char, except_bind_ok] at h
  obtain ⟨line, _, h⟩ := h
  rw [except_bind_ok] at h
  obtain ⟨extracted, _, h⟩ := h
  cases extracted with
  | cons c rest =>
    have h2 : Except.ok { addVar s t c with locs := insert t (addVar s t c).locs }
        = Except.ok s2 := h
    cases h2
    show dlookup (addVar s t c).indeps v = dlookup s.indeps v
    rw [addVar_indeps]
  | nil =>
    have h2 : (calcIndeps s (collectFree value) >>= fun ind =>
        Except.ok { s with indeps := dset s.indeps t (ind \ s.context) })
        = Except.ok s2 := h
    rw [except_bind_ok] at h2
    obtain ⟨ind, _, h2⟩ := h2
    cases h2
    exact dlookup_dset_ne s.indeps t (ind \ s.context) v hv

/-- Witness for C9: x = a = ... with two targets; the second target's entry
    is untouched. -/
theorem claim_C9_first_target_only_witness :
    run 9 c5S0 (.one (.assign ["x", "a"] (.name "a" .load) 1)) = .ok c9W ∧
    dlookup c9W.indeps "a" = dlookup c5S0.indeps "a" :=
  ⟨by decide, claim_C9_first_target_only 8 c5S0 c9W "x" ["a"] (.name "a" .load) 1 (by decide)
    "a" (by decide)⟩

theorem dlookup_mem (d : Dict) (x : String) (v : VarSet) (h : dlookup d x = some v) :
    (x, v) ∈ d := by
  induction d with
  | nil => simp [dlookup] at h
  | cons kv rest ih =>
    obtain ⟨k1, v1⟩ := kv
    by_cases hk : k1 = x
    · subst hk
      rw [show dlookup ((k1, v1) :: rest) k1 = some v1 from by simp [dlookup]] at h
      cases h
      exact List.mem_cons_self _ _
    · simp only [dlookup, if_neg hk] at h
      exact List.mem_cons_of_mem _ (ih h)

theorem collectE_true_subset (e : Expr) : collectE true e ⊆ collectE false e := by
  induction e with
  | name id ctx =>
    cases ctx <;> simp [collectE]
  | num n => simp [collectE]
  | binop l r ihl ihr => exact Finset.union_subset_union ihl ihr
  | call f args ihf iha => exact iha
  | anil => simp [collectE]
  | acons h t ih1 ih2 => exact Finset.union_subset_union ih1 ih2

theorem foldl_addVar_fields (l : List (String × Confidentiality)) :
    ∀ (s : State), (l.foldl (fun acc p => addVar acc p.1 p.2) s).indeps = s.indeps ∧
      (l.foldl (fun acc p => addVar acc p.1 p.2) s).all_vars = s.all_vars ∧
      (l.foldl (fun acc p => addVar acc p.1 p.2) s).lines = s.lines ∧
      (l.foldl (fun acc p => addVar acc p.1 p.2) s).context = s.context := by
  induction l with
  | nil => intro s; exact ⟨rfl, rfl, rfl, rfl⟩
  | cons p rest ih =>
    intro s
    simp only [List.foldl_cons]
    obtain ⟨h1, h2, h3, h4⟩ := ih (addVar s p.1 p.2)
    exact ⟨h1.trans (addVar_indeps s p.1 p.2), h2.trans (addVar_all_vars s p.1 p.2),
      h3.trans (addVar_lines s p.1 p.2), h4.trans (addVar_context s p.1 p.2)⟩

theorem dkeys_init_map (V : VarSet) :
    dkeys ((sortedVars V).map (fun v => (v, V.erase v))) = sortedVars V := by
  simp only [dkeys, List.map_map]
  exact List.map_id (sortedVars V)

theorem initState_inv (lines : List String) (V : VarSet) : Inv (initState lines V) := by
  refine ⟨?_, ?_, ?_⟩
  · show (dkeys ((sortedVars V).map (fun v => (v, V.erase v)))).Nodup
    rw [dkeys_init_map]
    exact sortedVars_nodup V
  · intro k
    show k ∈ dkeys ((sortedVars V).map (fun v => (v, V.erase v))) ↔ k ∈ V
    rw [dkeys_init_map]
    exact mem_sortedVars V k
  · intro k v hkv
    have hmem : (k, v) ∈ (sortedVars V).map (fun w => (w, V.erase w)) :=
      dlookup_mem _ _ _ hkv
    rw [List.mem_map] at hmem
    obtain ⟨w, _, hw⟩ := hmem
    have hv : v = V.erase w := congrArg Prod.snd hw.symm
    subst hv
    show V.erase w ⊆ V
    exact Finset.erase_subset w V

theorem InvD_joinD (A B : Dict) (V : VarSet) (j : Dict) (hA : InvD A V)
    (hj : joinD A B = .ok j) : InvD j V := by
  obtain ⟨hkJ, hchJ⟩ := joinD_ok_char A B j hj
  obtain ⟨nd, kiff, vsub⟩ := hA
  refine ⟨by rw [hkJ]; exact nd, fun k => by rw [hkJ]; exact kiff k, ?_⟩
  intro k v hkv
  obtain ⟨va, vb, hva, hvb, hveq⟩ := hchJ k v hkv
  subst hveq
  exact subset_trans Finset.inter_subset_left (vsub k va hva)

theorem InvD_dset (d : Dict) (V : VarSet) (t : String) (v : VarSet)
    (hd : InvD d V) (ht : t ∈ V) (hv : v ⊆ V) : InvD (dset d t v) V := by
  obtain ⟨nd, kiff, vsub⟩ := hd
  have htk : t ∈ dkeys d := (kiff t).mpr ht
  have hkeys := dkeys_dset_of_mem d t v htk
  refine ⟨by rw [hkeys]; exact nd, fun k => by rw [hkeys]; exact kiff k, ?_⟩
  intro k w hkw
  by_cases hk : k = t
  · subst hk
    rw [dlookup_dset_self] at hkw
    cases hkw
    exact hv
  · rw [dlookup_dset_ne d t v k hk] at hkw
    exact vsub k w hkw

theorem run_assign_nil_char (n : Nat) (s : State) (value : Expr) (lineno : Nat) :
    run (n + 1) s (.one (.assign [] value lineno)) =
      (getLine s lineno >>= fun line =>
        extractFlowConfig line >>= fun _ => .error "IndexError") := rfl

theorem run_preserves_inv : ∀ (n : Nat) (s : State) (t : Task) (s2 : State),
    Inv s → taskNames t ⊆ s.all_vars → run n s t = .ok s2 →
    Inv s2 ∧ s2.all_vars = s.all_vars := by
  intro n
  induction n with
  | zero =>
    intro s t s2 _ _ h
    cases h
  | succ n ih =>
    intro s t s2 hInv hNames h
    cases t with
    | loopw fv body =>
      rw [run_loopw_char] at h
      rw [except_bind_ok] at h
      obtain ⟨deps, hdeps, h⟩ := h
      rw [except_bind_ok] at h
      obtain ⟨sb, hb, h⟩ := h
      rw [except_bind_ok] at h
      obtain ⟨j, hj, h⟩ := h
      have hNames2 : fv ∪ collectS false body ⊆ s.all_vars := hNames
      have hNbody : taskNames (.one body) ⊆
          ({ s with context := s.context ∪ deps } : State).all_vars :=
        subset_trans Finset.subset_union_right hNames2
      have hInv1 : Inv { s with context := s.context ∪ deps } := hInv
      obtain ⟨hInvb, hVarsb⟩ := ih { s with context := s.context ∪ deps } (.one body) sb
        hInv1 hNbody hb
      have hVb : sb.all_vars = s.all_vars := hVarsb
      have hInvJ : InvD j sb.all_vars := InvD_joinD sb.indeps s.indeps sb.all_vars j hInvb hj
      by_cases hq : dictBeq j s.indeps = true
      · rw [if_pos hq] at h
        cases h
        exact ⟨hInvJ, hVb⟩
      · rw [if_neg hq] at h
        have hInv3 : Inv { sb with indeps := j } := hInvJ
        have hN3 : taskNames (.loopw fv body) ⊆ ({ sb with indeps := j } : State).all_vars := by
          show taskNames (.loopw fv body) ⊆ sb.all_vars
          rw [hVb]
          exact hNames
        obtain ⟨hInvr, hVarsr⟩ := ih { sb with indeps := j } (.loopw fv body) s2 hInv3 hN3 h
        have hVr : s2.all_vars = sb.all_vars := hVarsr
        exact ⟨hInvr, hVr.trans hVb⟩
    | one st =>
      cases st with
      | snil =>
        rw [run_snil_char] at h
        cases h
        exact ⟨hInv, rfl⟩
      | ret e =>
        rw [run_ret_char] at h
        cases h
        exact ⟨hInv, rfl⟩
      | scons a b =>
        rw [run_scons_char] at h
        rw [except_bind_ok] at h
        obtain ⟨sa, ha, hb2⟩ := h
        have hN : collectS false a ∪ collectS false b ⊆ s.all_vars := hNames
        have hNa : taskNames (.one a) ⊆ s.all_vars := subset_trans Finset.subset_union_left hN
        have hNb : collectS false b ⊆ s.all_vars := subset_trans Finset.subset_union_right hN
        obtain ⟨hia, hva⟩ := ih s (.one a) sa hInv hNa ha
        obtain ⟨hib, hvb⟩ := ih sa (.one b) s2 hia (by rw [hva]; exact hNb) hb2
        exact ⟨hib, hvb.trans hva⟩
      | assign targets value lineno =>
        cases targets with
        | nil =>
          rw [run_assign_nil_char] at h
          rw [except_bind_ok] at h
          obtain ⟨line, _, h⟩ := h
          rw [except_bind_ok] at h
          obtain ⟨conf, _, h⟩ := h
          cases h
        | cons t ts =>
          rw [run_assign_char] at h
          rw [except_bind_ok] at h
          obtain ⟨line, _, h⟩ := h
          rw [except_bind_ok] at h
          obtain ⟨extracted, _, h⟩ := h
          cases extracted with
          | cons c cs =>
            have h2 : Except.ok { addVar s t c with locs := insert t (addVar s t c).locs }
                = Except.ok s2 := h
            cases h2
            constructor
            · show InvD (addVar s t c).indeps (addVar s t c).all_vars
              rw [addVar_indeps, addVar_all_vars]
              exact hInv
            · show (addVar s t c).all_vars = s.all_vars
              exact addVar_all_vars s t c
          | nil =>
            have h2 : (calcIndeps s (collectFree value) >>= fun ind =>
                Except.ok { s with indeps := dset s.indeps t (ind \ s.context) })
                = Except.ok s2 := h
            rw [except_bind_ok] at h2
            obtain ⟨ind, hind, h2⟩ := h2
            cases h2
            have hN : (t :: ts).toFinset ∪ collectE false value ⊆ s.all_vars := hNames
            have hNt : t ∈ s.all_vars := hN (Finset.mem_union_left _ (by simp))
            have hsub : ind \ s.context ⊆ s.all_vars :=
              subset_trans Finset.sdiff_subset
                (calcIndeps_subset s (collectFree value) ind hInv hind)
            exact ⟨InvD_dset s.indeps s.all_vars t (ind \ s.context) hInv hNt hsub, rfl⟩
      | augassign t value =>
        rw [run_augassign_char] at h
        rw [except_bind_ok] at h
        obtain ⟨ind, hind, h⟩ := h
        cases h
        have hN : {t} ∪ collectE false value ⊆ s.all_vars := hNames
        have hNt : t ∈ s.all_vars := hN (Finset.mem_union_left _ (Finset.mem_singleton_self t))
        have hsub : ind \ (s.context ∪ {t}) ⊆ s.all_vars :=
          subset_trans Finset.sdiff_subset
            (calcIndeps_subset s (collectFree value) ind hInv hind)
        exact ⟨InvD_dset s.indeps s.all_vars t (ind \ (s.context ∪ {t})) hInv hNt hsub, rfl⟩
      | sif test body orelse =>
        rw [run_sif_char] at h
        rw [except_bind_ok] at h
        obtain ⟨deps, _, h⟩ := h
        rw [except_bind_ok] at h
        obtain ⟨sa, ha, h⟩ := h
        rw [except_bind_ok] at h
        obtain ⟨sb, hb, h⟩ := h
        rw [except_bind_ok] at h
        obtain ⟨j, hj, h⟩ := h
        cases h
        have hN : collectE false test ∪ collectS false body ∪ collectS false orelse ⊆
            s.all_vars := hNames
        have hNbody : collectS false body ⊆ s.all_vars :=
          subset_trans Finset.subset_union_right (subset_trans Finset.subset_union_left hN)
        obtain ⟨hia, hva⟩ := ih { s with context := s.context ∪ deps } (.one body) sa hInv
          hNbody ha
        have hVa : sa.all_vars = s.all_vars := hva
        obtain ⟨hib, hvb⟩ := ih { sa with context := s.context ∪ deps } (.one body) sb hia
          (by show collectS false body ⊆ sa.all_vars; rw [hVa]; exact hNbody) hb
        have hVb : sb.all_vars = sa.all_vars := hvb
        have hInvJ : InvD j sa.all_vars := InvD_joinD sa.indeps sb.indeps sa.all_vars j hia hj
        constructor
        · show InvD j sb.all_vars
          rw [hVb]
          exact hInvJ
        · show sb.all_vars = s.all_vars
          exact hVb.trans hVa
      | swhile test body orelse =>
        rw [run_swhile_char] at h
        rw [except_bind_ok] at h
        obtain ⟨sa, ha, h⟩ := h
        cases h
        have hN : collectE false test ∪ collectS false body ∪ collectS false orelse ⊆
            s.all_vars := hNames
        have hNloop : taskNames (.loopw (collectFree test) body) ⊆ s.all_vars := by
          show collectFree test ∪ collectS false body ⊆ s.all_vars
          apply Finset.union_subset
          · exact subset_trans (collectE_true_subset test)
              (subset_trans Finset.subset_union_left
                (subset_trans Finset.subset_union_left hN))
          · exact subset_trans Finset.subset_union_right
              (subset_trans Finset.subset_union_left hN)
        obtain ⟨hia, hva⟩ := ih s (.loopw (collectFree test) body) sa hInv hNloop ha
        exact ⟨hia, hva⟩
      | sfor tgt iterE body orelse =>
        rw [run_sfor_char] at h
        rw [except_bind_ok] at h
        obtain ⟨sa, ha, h⟩ := h
        cases h
        have hN : collectE false iterE ∪ collectS false body ∪ collectS false orelse ⊆
            s.all_vars := hNames
        have hNloop : taskNames (.loopw (collectFree iterE) body) ⊆ s.all_vars := by
          show collectFree iterE ∪ collectS false body ⊆ s.all_vars
          apply Finset.union_subset
          · exact subset_trans (collectE_true_subset iterE)
              (subset_trans Finset.subset_union_left
                (subset_trans Finset.subset_union_left hN))
          · exact subset_trans Finset.subset_union_right
              (subset_trans Finset.subset_union_left hN)
        obtain ⟨hia, hva⟩ := ih s (.loopw (collectFree iterE) body) sa hInv hNloop ha
        exact ⟨hia, hva⟩
      | sfunc fname args body lineno col =>
        rw [run_sfunc_char] at h
        rw [except_bind_ok] at h
        obtain ⟨line, _, h⟩ := h
        rw [except_bind_ok] at h
        obtain ⟨conf, _, h⟩ := h
        rw [except_bind_ok] at h
        obtain ⟨sa, ha, h⟩ := h
        rw [except_bind_ok] at h
        obtain ⟨sc, hc, h⟩ := h
        cases h
        obtain ⟨hzi, hzv, _, _⟩ := foldl_addVar_fields (args.zip conf)
          { s with high := ∅, low := ∅, locs := ∅ }
        have hInvz : Inv ((args.zip conf).foldl (fun acc p => addVar acc p.1 p.2)
            { s with high := ∅, low := ∅, locs := ∅ }) := by
          show InvD _ _
          rw [hzi, hzv]
          exact hInv
        have hNz : taskNames (.one body) ⊆ ((args.zip conf).foldl
            (fun acc p => addVar acc p.1 p.2)
            { s with high := ∅, low := ∅, locs := ∅ }).all_vars := by
          rw [hzv]
          exact hNames
        obtain ⟨hia, hva⟩ := ih _ (.one body) sa hInvz hNz ha
        obtain ⟨q1, q2, _, _, _, _, _⟩ := checkPairs_state lineno col fname sa sc hc
        refine ⟨?_, ?_⟩
        · show InvD sc.indeps sc.all_vars
          rw [q1, q2]
          exact hia
        · show sc.all_vars = s.all_vars
          rw [q2, hva, hzv]

/-- C10: after engine initialization over variable set V, and after visiting
    any statement all of whose referenced names lie in V from a state with
    the invariant, the key set of the independency map equals V (as a
    duplicate-free dict) and every value set indeps[v] is contained in V. -/
theorem claim_C10_invariant :
    (∀ lines V, Inv (initState lines V)) ∧
    (∀ n s st s2, Inv s → collectS false st ⊆ s.all_vars →
      run n s (.one st) = .ok s2 → Inv s2 ∧ s2.all_vars = s.all_vars) :=
  ⟨initState_inv,
   fun n s st s2 hi hn h => run_preserves_inv n s (.one st) s2 hi hn h⟩

/-- Witness for C10: the invariant holds at a fresh state and is preserved
    by visiting x = a. -/
theorem claim_C10_invariant_witness :
    Inv c5S0 ∧ (Inv c10W ∧ c10W.all_vars = c5S0.all_vars) :=
  ⟨claim_C10_invariant.1 c5Lines c5Vars,
   claim_C10_invariant.2 9 c5S0 c10St c10W (claim_C10_invariant.1 c5Lines c5Vars)
     (by decide) (by decide)⟩

theorem except_bind_of_ok {a b : Type} {x : Except String a} {v : a}
    (h : x = .ok v) (f : a → Except String b) : (x >>= f) = f v := by
  rw [h]
  rfl

theorem except_bind_of_error {a b : Type} {x : Except String a} {e : String}
    (h : x = .error e) (f : a → Except String b) : (x >>= f) = .error e := by
  rw [h]
  rfl

/-- C1: the final map of an if statement is not join(thenMap, elseMap):
    visit_If visits the then body twice and never visits orelse.  On
    if c: x = a  else: x = b from a fresh four-variable state, the code
    leaves indeps[x] = set(b, x), while the join of the two branch maps
    computed from the branch-entry state has indeps[x] = set(x). -/
theorem claim_C1_if_ignores_orelse :
    (run 9 c1S0 (.one c1If)).map (fun s => dlookup s.indeps "x") = .ok (some {"b", "x"}) ∧
    (run 9 c1Entry (.one c1Then) >>= fun sThen =>
      run 9 c1Entry (.one c1Else) >>= fun sElse =>
        joinD sThen.indeps sElse.indeps >>= fun j =>
          Except.ok (dlookup j "x")) = .ok (some {"x"}) ∧
    calcDeps c1S0 (collectFree (.name "c" .load)) = .ok {"c"} ∧
    c1S0.context = ∅ ∧
    ¬(({"b", "x"} : VarSet) = {"x"}) :=
  ⟨by decide, by decide, by decide, by decide, by decide⟩

/-- C2: the pair check of visit_FunctionDef calls add_error unconditionally:
    for the function def f(h, l) with labels High, Low and body return h + l
    there is no violation (h and l are mutually independent at check time),
    yet the code does not produce zero diagnostics; instead it reads the
    never-assigned error_type and raises UnboundLocalError. -/
theorem claim_C2_unconditional_diagnostic :
    analyse c2Lines c2Mod 20 = .error "UnboundLocalError" ∧
    dlookup (initState c2Lines (collectS false c2Mod)).indeps "h" = some {"l"} ∧
    dlookup (initState c2Lines (collectS false c2Mod)).indeps "l" = some {"h"} :=
  ⟨by decide, by decide, by decide⟩

/-- C3 counterexample: an unparseable label (flow: Bogus on function f) does
    not surface as a per-function error with the analysis continuing; the
    whole run aborts with ValueError and the following function g is never
    analysed. -/
theorem claim_C3_counterexample : analyse c3Lines c3Mod 20 = .error "ValueError" := by
  decide

/-- C3 (amended): a confidentiality label that does not parse raises
    ValueError, which propagates out of the function visit and aborts the
    whole run: any statement sequence starting with that function definition
    fails with the same error. -/
theorem claim_C3_label_error_aborts (n : Nat) (s : State) (fname : String)
    (args : List String) (body : Stmt) (lineno col : Nat) (line e : String)
    (hl : getLine s lineno = .ok line)
    (hx : extractFlowConfig line = .error e) :
    run (n + 1) s (.one (.sfunc fname args body lineno col)) = .error e ∧
    ∀ rest, run (n + 2) s (.one (.scons (.sfunc fname args body lineno col) rest)) =
      .error e := by
  have h1 : run (n + 1) s (.one (.sfunc fname args body lineno col)) = .error e := by
    rw [run_sfunc_char]
    simp only [except_bind_of_ok hl]
    rw [except_bind_of_error hx]
  refine ⟨h1, fun rest => ?_⟩
  rw [run_scons_char]
  rw [except_bind_of_error h1]

/-- Witness for C3: the concrete module with the bad label on f aborts, both
    alone and followed by the well-labelled g. -/
theorem claim_C3_label_error_aborts_witness :
    run 9 (initState c3Lines (collectS false c3Mod)) (.one c3F) = .error "ValueError" ∧
    run 10 (initState c3Lines (collectS false c3Mod))
      (.one (.scons c3F (.scons (.sfunc "g" ["a", "b"] c3GBody 2 0) .snil))) =
      .error "ValueError" :=
  ⟨(claim_C3_label_error_aborts 8 (initState c3Lines (collectS false c3Mod)) "f" ["h"]
      c3FBody 1 0 "def f(h):  # flow: Bogus" "ValueError" (by decide) (by decide)).1,
   (claim_C3_label_error_aborts 8 (initState c3Lines (collectS false c3Mod)) "f" ["h"]
      c3FBody 1 0 "def f(h):  # flow: Bogus" "ValueError" (by decide) (by decide)).2
     (.scons (.sfunc "g" ["a", "b"] c3GBody 2 0) .snil)⟩

theorem loopRunF_char (f : State → Except String State) (m : Nat) (fv : VarSet)
    (s : State) :
    loopRunF f (m + 1) fv s = (calcDeps s fv >>= fun deps =>
      f { s with context := s.context ∪ deps } >>= fun s2 =>
        joinD s2.indeps s.indeps >>= fun j =>
          if dictBeq j s.indeps then .ok ({ s2 with indeps := j }, 1)
          else (loopRunF f m fv { s2 with indeps := j } >>= fun r =>
            .ok (r.1, r.2 + 1))) := rfl

theorem loopRunF_total (f : State → Except String State) (K : List String) (fv : VarSet)
    (hK : K.Nodup)
    (hf : ∀ t, dkeys t.indeps = K → ∃ t2, f t = .ok t2 ∧ dkeys t2.indeps = K)
    (hfv : ∀ x ∈ fv, x ∈ K) :
    ∀ (fuel : Nat) (s : State), dkeys s.indeps = K → dsize s.indeps < fuel →
      ∃ R cnt, loopRunF f fuel fv s = .ok (R, cnt) ∧ cnt ≤ dsize s.indeps + 1 ∧
        dkeys R.indeps = K := by
  intro fuel
  induction fuel with
  | zero =>
    intro s _ h
    exact absurd h (Nat.not_lt_zero _)
  | succ m ih =>
    intro s hkeys hsize
    obtain ⟨deps, hdeps⟩ := calcDeps_ok s fv (fun x hx => hkeys.symm ▸ hfv x hx)
    obtain ⟨s2, hfs, hk2⟩ := hf { s with context := s.context ∪ deps } hkeys
    obtain ⟨j, hj, hkj, hforall⟩ := joinD_forall2 s2.indeps s.indeps
      (by rw [hk2, hkeys]) (by rw [hkeys]; exact hK)
    rw [loopRunF_char]
    simp only [except_bind_of_ok hdeps]
    simp only [except_bind_of_ok hfs]
    simp only [except_bind_of_ok hj]
    by_cases hq : dictBeq j s.indeps = true
    · rw [if_pos hq]
      refine ⟨{ s2 with indeps := j }, 1, rfl, by omega, ?_⟩
      show dkeys j = K
      rw [hkj, hk2]
    · rw [if_neg hq]
      have hqf : dictBeq j s.indeps = false := by
        revert hq
        cases dictBeq j s.indeps <;> simp
      have hlt : dsize j < dsize s.indeps :=
        dsize_lt_of_not_beq j s.indeps hforall (by rw [hkeys]; exact hK) hqf
      obtain ⟨R, cnt, hrun, hcnt, hkR⟩ := ih { s2 with indeps := j }
        (by show dkeys j = K; rw [hkj, hk2]) (by show dsize j < m; omega)
      have hcnt2 : cnt ≤ dsize j + 1 := hcnt
      refine ⟨R, cnt + 1, ?_, by omega, hkR⟩
      rw [except_bind_of_ok hrun]

/-- C4 counterexample: the program a = 1; while b: (b = a; if b: a += 1;
    t += 1) has the three tracked variables a, b, t, yet starting from the
    loop-entry state its fixpoint iteration performs 4 join iterations,
    more than the number of tracked variables. -/
theorem claim_C4_counterexample :
    run 20 c4S0 (.one c4Setup) = .ok c4Entry ∧
    (loopRunF c4BodyF 10 {"b"} c4Entry).map (fun p => p.2) = .ok 4 ∧
    collectS false c4Mod = c4Vars ∧
    c4Vars.card = 3 :=
  ⟨by decide, by decide, by decide, by decide⟩

/-- C4 (amended): for a loop body that succeeds and preserves the key
    sequence of the independency map, the fixpoint iteration terminates
    after at most S + 1 join iterations, where S is the total size of the
    entry independency map (bounded by the square of the number of tracked
    variables, not by the number of tracked variables), and the resulting
    map R is a join fixpoint: join(R, R) == R. -/
theorem claim_C4_loop_terminates (f : State → Except String State) (K : List String)
    (fv : VarSet) (s : State) (hK : K.Nodup)
    (hf : ∀ t, dkeys t.indeps = K → ∃ t2, f t = .ok t2 ∧ dkeys t2.indeps = K)
    (hfv : ∀ x ∈ fv, x ∈ K) (hs : dkeys s.indeps = K) :
    ∃ R cnt, loopRunF f (dsize s.indeps + 1) fv s = .ok (R, cnt) ∧
      cnt ≤ dsize s.indeps + 1 ∧ joinD R.indeps R.indeps = .ok R.indeps := by
  obtain ⟨R, cnt, h1, h2, h3⟩ :=
    loopRunF_total f K fv hK hf hfv (dsize s.indeps + 1) s hs (by omega)
  exact ⟨R, cnt, h1, h2, joinD_self R.indeps (by rw [h3]; exact hK)⟩

/-- Witness for the amended C4 with the identity loop body over one tracked
    variable. -/
theorem claim_C4_loop_terminates_witness :
    ∃ R cnt, loopRunF (fun t => Except.ok t) (dsize c4W0.indeps + 1) {"a"} c4W0 =
      .ok (R, cnt) ∧ cnt ≤ dsize c4W0.indeps + 1 ∧
      joinD R.indeps R.indeps = .ok R.indeps :=
  claim_C4_loop_terminates (fun t => Except.ok t) ["a"] {"a"} c4W0 (by decide)
    (fun t ht => ⟨t, rfl, ht⟩) (by decide) (by decide)

end StaticInFlow
